import Mathlib

/-
  Verification development for the ESP32-C3 LaserBridge firmware
  (src/LaserBridge_ESP32C3_OLED/LaserBridge_ESP32C3_OLED.ino).

  Shallow embedding conventions:
  * Arduino `String` values are embedded as `List Char`.
  * The program file is embedded as a `List (List Char)` of lines, i.e. the
    successive results of `readStringUntil('\n')`; the open file handle's
    read cursor is embedded as the remaining suffix `fileRest`.
  * Serial writes to the laser (`LaserSerial`) are recorded in an output
    trace: `SOut.cmd l` is a newline-terminated command line
    (`println` / `print(line); write('\n')`), `SOut.rt c` is a raw single
    byte written with no terminator (`write(c)`).
  * `millis()` is embedded as a `Nat` argument `now` (monotone clock).
  * The SPIFFS filesystem is abstracted as the `content` argument of
    `startJob`: `none` models a missing file, `some ls` models the file's
    lines (snapshotted for the duration of the job).
  * Pure telemetry that no claim mentions is omitted from the state:
    the OLED flags, the byte counters, the bounded text log and the
    USB debug console prints.
-/

namespace LaserBridge

/-- Whitespace as recognized by Arduino `String::trim` (C `isspace`). -/
def isSpace (c : Char) : Bool :=
  c = ' ' || c = '\t' || c = '\n' || c = '\x0b' || c = '\x0c' || c = '\r'

/-- Remove trailing whitespace (the tail half of Arduino `String::trim`). -/
def trimR : List Char → List Char
  | [] => []
  | a :: rest =>
    match trimR rest with
    | [] => if isSpace a then [] else [a]
    | b :: r => a :: b :: r

/-- Arduino `String::trim`: strip leading and trailing whitespace. -/
def trim (l : List Char) : List Char := trimR (l.dropWhile isSpace)

/-- Arduino `String::startsWith` on the embedded strings. -/
def startsWithL : List Char → List Char → Bool
  | [], _ => true
  | _ :: _, [] => false
  | p :: ps, c :: cs => if p = c then startsWithL ps cs else false

/-- `line.replace("\r", "")` from `grblSendGcodeLine`. -/
def removeCR (l : List Char) : List Char := l.filter (fun c => c ≠ '\r')

/-- Models `int pos = line.indexOf(t); if (pos > 0) line = line.substring(0, pos);`
from the Running phase of `processJob`: truncate at the first occurrence of `t`
unless it is absent (`pos = -1`, `takeWhile` is then the whole list) or at
index 0 (`pos = 0`, left unchanged). -/
def stripFrom (t : Char) (l : List Char) : List Char :=
  if l.head? = some t then l else l.takeWhile (fun c => c ≠ t)

/-- One candidate line of the pre-scan `countLines`: non-empty after trimming
and not starting with `;` or `(`. -/
def candidateLine (raw : List Char) : Bool :=
  let line := trim raw
  !line.isEmpty && !(line.head? = some ';') && !(line.head? = some '(')

/-- `countLines`: the pre-scan over the whole file. -/
def countL (file : List (List Char)) : Nat := (file.filter candidateLine).length

/-- The per-line body of the `while (gcodeFile.available())` loop in the
Running phase of `processJob`: `none` when the line is skipped
(empty / comment / empty after inline-comment stripping), `some cmd` when
`cmd` is handed to `grblSendLine`. -/
def processLine (raw : List Char) : Option (List Char) :=
  let line := trim raw
  if line.isEmpty then none
  else if line.head? = some ';' then none
  else if line.head? = some '(' then none
  else
    let s := trim (stripFrom '(' (stripFrom ';' line))
    if s.isEmpty then none else some s

/-- The Running-phase loop as seen from the file handle: read lines until one
is eligible, returning it together with the rest of the file, or `none` when
the file is exhausted without another eligible line. -/
def nextCmd : List (List Char) → Option (List Char × List (List Char))
  | [] => none
  | l :: rest =>
    match processLine l with
    | some c => some (c, rest)
    | none => nextCmd rest

/-- A write to the laser serial port: `cmd l` is a newline-terminated command
line, `rt c` a raw single byte with no terminator. -/
inductive SOut where
  | cmd (l : List Char)
  | rt (c : Char)
  deriving DecidableEq, Repr

/-- Job states (`enum JobState`). -/
inductive JState where
  | Idle | PreHoming | Running | PostHoming | Paused | Complete | Error
  deriving DecidableEq, Repr

/-- The global mutable state of the sketch that the claims are about. -/
@[ext]
structure Sys where
  jobState : JState
  fileOpen : Bool
  fileRest : List (List Char)
  pendingContent : Option (List (List Char))
  currentJobFile : List Char
  pendingJobFile : List Char
  totalLines : Nat
  currentLine : Nat
  waitingForOk : Bool
  lastCommandTime : Nat
  wsBuf : List Char
  out : List SOut
  deriving DecidableEq, Repr

/-- `const uint32_t COMMAND_TIMEOUT = 30000;` -/
def COMMAND_TIMEOUT : Nat := 30000

/-- `const uint32_t HOMING_TIMEOUT = 60000;` -/
def HOMING_TIMEOUT : Nat := 60000

/-- The soft-reset byte `0x18` (Ctrl+X). -/
def ctrlX : Char := '\x18'

/-- The acknowledgment token, the exact line `ok`. -/
def okTok : List Char := ['o', 'k']

/-- The device error line marker `error:`. -/
def errTok : List Char := ['e', 'r', 'r', 'o', 'r', ':']

/-- The alarm line marker `ALARM:`. -/
def alarmTok : List Char := ['A', 'L', 'A', 'R', 'M', ':']

/-- The homing command `$H`. -/
def homeCmd : List Char := ['$', 'H']

/-- The realtime signal bytes recognized by `processWsBuffer`. -/
def isRealtime (c : Char) : Bool :=
  c = '?' || c = '!' || c = '~' || c = ctrlX

/-- The initial state after `setup()`: all globals at their declared values. -/
def init : Sys :=
  { jobState := .Idle, fileOpen := false, fileRest := [], pendingContent := none,
    currentJobFile := [], pendingJobFile := [], totalLines := 0, currentLine := 0,
    waitingForOk := false, lastCommandTime := 0, wsBuf := [], out := [] }

/-- `String path = filename.startsWith("/") ? filename : "/" + filename;` -/
def normPath (name : List Char) : List Char :=
  if name.head? = some '/' then name else '/' :: name

/-- `startJob(filename)`. The SPIFFS lookup at the normalized path is
abstracted by `content` (`none`: the file does not exist; `some ls`: its
lines). When the guard passes and the file exists it records the job,
pre-computes `totalLines` via `countLines`, moves to PreHoming and sends `$H`
with `waitingForOk = true`. -/
def startJob (now : Nat) (s : Sys) (name : List Char)
    (content : Option (List (List Char))) : Sys :=
  if s.jobState = .Running ∨ s.jobState = .PreHoming ∨ s.jobState = .PostHoming then s
  else
    match content with
    | none => { s with jobState := .Error }
    | some ls =>
      { s with pendingJobFile := normPath name, currentJobFile := name,
               pendingContent := some ls,
               totalLines := countL ls, currentLine := 0,
               jobState := .PreHoming, waitingForOk := true,
               lastCommandTime := now,
               out := s.out ++ [SOut.cmd homeCmd] }

/-- `pauseJob()`: from Running, write the feed-hold byte and move to Paused. -/
def pauseJob (s : Sys) : Sys :=
  if s.jobState = .Running then
    { s with jobState := .Paused, out := s.out ++ [SOut.rt '!'] }
  else s

/-- `resumeJob()`: from Paused, write the cycle-resume byte and move back to
Running. -/
def resumeJob (s : Sys) : Sys :=
  if s.jobState = .Paused then
    { s with jobState := .Running, out := s.out ++ [SOut.rt '~'] }
  else s

/-- `stopJob()`: `grblReset()` (write `0x18`, clear `waitingForOk`), close any
open file, clear the job bookkeeping, back to Idle. -/
def stopJob (s : Sys) : Sys :=
  { s with out := s.out ++ [SOut.rt ctrlX], waitingForOk := false,
           fileOpen := false,
           jobState := .Idle, currentLine := 0, totalLines := 0,
           currentJobFile := [], pendingJobFile := [] }

/-- One call of `processJob()` at time `now` (`millis()`). The sequential
early-return `if` chain of the source is rendered as a match on the job
state. In the Running phase, `grblSendLine` is inlined: append the command
line to the serial trace, set `waitingForOk`, record the send time. -/
def processJob (now : Nat) (s : Sys) : Sys :=
  match s.jobState with
  | .PreHoming =>
    if s.waitingForOk = false then
      match s.pendingContent with
      | none => { s with jobState := .Error }
      | some ls => { s with fileOpen := true, fileRest := ls, jobState := .Running }
    else if now - s.lastCommandTime > HOMING_TIMEOUT then
      { s with jobState := .Error }
    else s
  | .PostHoming =>
    if s.waitingForOk = false then { s with jobState := .Complete }
    else if now - s.lastCommandTime > HOMING_TIMEOUT then
      { s with jobState := .Complete }
    else s
  | .Running =>
    if s.waitingForOk = true then
      if now - s.lastCommandTime > COMMAND_TIMEOUT then
        { s with jobState := .Error, fileOpen := false }
      else s
    else
      match nextCmd s.fileRest with
      | some (c, rest) =>
        { s with fileRest := rest, currentLine := s.currentLine + 1,
                 waitingForOk := true, lastCommandTime := now,
                 out := s.out ++ [SOut.cmd c] }
      | none =>
        { s with fileOpen := false, fileRest := [],
                 jobState := .PostHoming, waitingForOk := true,
                 lastCommandTime := now, out := s.out ++ [SOut.cmd homeCmd] }
  | _ => s

/-- The per-complete-line body of `processGrblResponse()`: trim the framed
line, then classify `ok` / `error:` / `ALARM:` / `Grbl` banner / other.
Only the job-relevant effects are kept (logging and the WebSocket echo are
telemetry). -/
def processResponse (s : Sys) (line : List Char) : Sys :=
  let lb := trim line
  if lb.isEmpty then s
  else if lb = okTok then { s with waitingForOk := false }
  else if startsWithL errTok lb then { s with waitingForOk := false }
  else if startsWithL alarmTok lb then
    if s.jobState = .Running then { s with jobState := .Error, fileOpen := false }
    else s
  else s

/-- `grblSendGcodeLine(rawLine)`: remove all CR, trim; drop empty lines; a
single `?`/`!`/`~` (or `0x18`) is written raw with no terminator; anything
else is written as a newline-terminated command. It never touches
`waitingForOk`. The serial writes are returned as a trace. -/
def grblSendGcodeLine (raw : List Char) : List SOut :=
  match trim (removeCR raw) with
  | [] => []
  | [c] =>
    if c = '?' ∨ c = '!' ∨ c = '~' then [SOut.rt c]
    else if c = ctrlX then [SOut.rt c]
    else [SOut.cmd [c]]
  | line => [SOut.cmd line]

/-- The line-extraction loop of `processWsBuffer`: repeatedly split off the
text before the first LF, returning the complete lines in order and the
LF-free residue that stays in the buffer. -/
def wsExtract : List Char → List (List Char) × List Char
  | [] => ([], [])
  | c :: rest =>
    let r := wsExtract rest
    if c = '\n' then ([] :: r.1, r.2)
    else
      match r with
      | ([], buf) => ([], c :: buf)
      | (l :: ls, buf) => ((c :: l) :: ls, buf)

/-- `if (line.endsWith("\r")) line.remove(line.length() - 1);` -/
def dropCRend (l : List Char) : List Char :=
  if l.getLast? = some '\r' then l.dropLast else l

/-- `processWsBuffer()` on the accumulated buffer `b`, returning the new
buffer and the serial writes: leading realtime bytes go out raw, complete
lines go through `grblSendGcodeLine`, realtime bytes surfacing at the new
head go out raw, and a residue longer than 256 is flushed through
`grblSendGcodeLine` and cleared. -/
def processWsBuffer (b : List Char) : List Char × List SOut :=
  let rt1 := (b.takeWhile isRealtime).map SOut.rt
  let b1 := b.dropWhile isRealtime
  let r := wsExtract b1
  let lineOuts := (r.1.map (fun l => grblSendGcodeLine (dropCRend l))).flatten
  let rt2 := (r.2.takeWhile isRealtime).map SOut.rt
  let b3 := r.2.dropWhile isRealtime
  if b3.length > 256 then ([], rt1 ++ lineOuts ++ rt2 ++ grblSendGcodeLine b3)
  else (b3, rt1 ++ lineOuts ++ rt2)

/-- The `WStype_TEXT` arm of `wsLaserEvent`: append the payload to the input
buffer and run `processWsBuffer`. -/
def wsText (s : Sys) (payload : List Char) : Sys :=
  if payload.isEmpty then s
  else
    let r := processWsBuffer (s.wsBuf ++ payload)
    { s with wsBuf := r.1, out := s.out ++ r.2 }

/-- The external stimuli that drive the bridge: job-control requests, a
`processJob` polling tick, one framed controller response line, and an
interactive WebSocket text payload. -/
inductive Ev where
  | start (name : List Char) (content : Option (List (List Char))) (now : Nat)
  | tick (now : Nat)
  | rx (line : List Char)
  | pause
  | resume
  | stop
  | ws (payload : List Char)

/-- Dispatch one stimulus. -/
def stepEv (s : Sys) : Ev → Sys
  | .start name content now => startJob now s name content
  | .tick now => processJob now s
  | .rx line => processResponse s line
  | .pause => pauseJob s
  | .resume => resumeJob s
  | .stop => stopJob s
  | .ws p => wsText s p

/-- Run a sequence of stimuli. A state is reachable iff it is `run es init`
for some event list `es`. -/
def run (es : List Ev) (s : Sys) : Sys := es.foldl stepEv s

/-- Drive an error-free job through the Running phase: at each iteration, if
the job is still Running, perform one `processJob` tick (at time 0) and
deliver the controller's `ok` for whatever was sent. -/
def okDrive : Nat → Sys → Sys
  | 0, s => s
  | n + 1, s =>
    if s.jobState = .Running then
      okDrive n (processResponse (processJob 0 s) okTok)
    else s

/-! ### Helper lemmas about trimming and line classification -/

theorem trimR_head {l : List Char} {c : Char} {r : List Char}
    (h : trimR l = c :: r) : l.head? = some c := by
  cases l with
  | nil => simp [trimR] at h
  | cons a t =>
    simp only [trimR] at h
    rcases ht : trimR t with _ | ⟨b, r'⟩ <;> rw [ht] at h
    · by_cases ha : isSpace a = true <;> simp [ha] at h <;> simp [h.1]
    · simp at h
      simp [h.1]

theorem trimR_cons_ne_nil {c : Char} (hc : isSpace c = false) (t : List Char) :
    trimR (c :: t) ≠ [] := by
  simp only [trimR]
  rcases ht : trimR t with _ | ⟨b, r'⟩ <;> simp [hc]

theorem head?_dropWhile_isSpace {l : List Char} {c : Char}
    (h : (l.dropWhile isSpace).head? = some c) : isSpace c = false := by
  induction l with
  | nil => simp [List.dropWhile] at h
  | cons a t ih =>
    by_cases ha : isSpace a = true
    · rw [List.dropWhile_cons_of_pos ha] at h
      exact ih h
    · rw [List.dropWhile_cons_of_neg ha] at h
      simp at h
      subst h
      simpa using ha

theorem trim_head_not_space {l : List Char} {c : Char} {r : List Char}
    (h : trim l = c :: r) : isSpace c = false :=
  head?_dropWhile_isSpace (trimR_head h)

theorem trim_of_head_not_space {c : Char} (hc : isSpace c = false)
    (t : List Char) : trim (c :: t) = trimR (c :: t) := by
  unfold trim
  rw [List.dropWhile_cons_of_neg (by simp [hc])]

/-- An eligible candidate line is exactly a line the Running phase sends:
the inline-comment stripping of a trimmed, non-comment, non-empty line can
never produce the empty string, because the stripping preserves the head
character and the head of a trimmed non-empty string is not whitespace. -/
theorem processLine_isSome_of_candidate {raw : List Char}
    (h : candidateLine raw = true) : ∃ c, processLine raw = some c := by
  unfold candidateLine at h
  simp only [Bool.and_eq_true, Bool.not_eq_true'] at h
  obtain ⟨⟨hne, hsemi⟩, hpar⟩ := h
  rcases hl : trim raw with _ | ⟨c, t⟩
  · rw [hl] at hne; simp at hne
  · have hcs : isSpace c = false := trim_head_not_space hl
    rw [hl] at hsemi hpar
    simp only [List.head?_cons, decide_eq_false_iff_not, Option.some.injEq] at hsemi hpar
    have h1 : stripFrom ';' (c :: t) = c :: (t.takeWhile (fun x => x ≠ ';')) := by
      unfold stripFrom
      simp only [List.head?_cons, Option.some.injEq]
      rw [if_neg hsemi, List.takeWhile_cons_of_pos (by simpa using hsemi)]
    rcases h2 : stripFrom '(' (stripFrom ';' (c :: t)) with _ | ⟨c2, t2⟩
    · rw [h1] at h2
      unfold stripFrom at h2
      simp only [List.head?_cons, Option.some.injEq] at h2
      rw [if_neg hpar] at h2
      rw [List.takeWhile_cons_of_pos (by simpa using hpar)] at h2
      simp at h2
    · have hc2 : c2 = c := by
        rw [h1] at h2
        unfold stripFrom at h2
        simp only [List.head?_cons, Option.some.injEq] at h2
        rw [if_neg hpar, List.takeWhile_cons_of_pos (by simpa using hpar)] at h2
        exact (List.cons.injEq .. ▸ h2).1.symm
      unfold processLine
      rw [hl]
      simp only [List.isEmpty_cons, Bool.false_eq_true, if_false, List.head?_cons,
        Option.some.injEq, if_neg hsemi, if_neg hpar, h2, hc2,
        trim_of_head_not_space hcs]
      have hne2 := trimR_cons_ne_nil hcs t2
      rcases h3 : trimR (c :: t2) with _ | ⟨d, t3⟩
      · exact absurd h3 hne2
      · exact ⟨d :: t3, by simp⟩

theorem processLine_none_of_not_candidate {raw : List Char}
    (h : candidateLine raw = false) : processLine raw = none := by
  unfold candidateLine at h
  unfold processLine
  simp only [Bool.and_eq_false_iff, Bool.not_eq_false'] at h
  rcases h with (h | h) | h
  · simp [h]
  · rcases h' : (trim raw).isEmpty with _ | _
    · simp [h', by simpa using h]
    · simp [h']
  · rcases h' : (trim raw).isEmpty with _ | _
    · by_cases h2 : (trim raw).head? = some ';'
      · simp [h', h2]
      · simp [h', h2, by simpa using h]
    · simp [h']

/-- Line-count fidelity at the level of the pure line classifiers: the
pre-scan count equals the number of lines the Running phase would send. -/
theorem countL_eq_length_filterMap (ls : List (List Char)) :
    countL ls = (ls.filterMap processLine).length := by
  induction ls with
  | nil => rfl
  | cons l t ih =>
    unfold countL at ih ⊢
    rcases hc : candidateLine l with _ | _
    · rw [List.filter_cons_of_neg (by simp [hc]),
        List.filterMap_cons, processLine_none_of_not_candidate hc, ih]
    · obtain ⟨c, hpl⟩ := processLine_isSome_of_candidate hc
      rw [List.filter_cons_of_pos (by simp [hc]), List.filterMap_cons, hpl]
      simp [ih]

theorem nextCmd_none_filterMap {ls : List (List Char)} (h : nextCmd ls = none) :
    ls.filterMap processLine = [] := by
  induction ls with
  | nil => rfl
  | cons l t ih =>
    unfold nextCmd at h
    rcases hpl : processLine l with _ | c <;> rw [hpl] at h
    · rw [List.filterMap_cons, hpl]
      exact ih h
    · simp at h

theorem nextCmd_some_filterMap {ls rest : List (List Char)} {c : List Char}
    (h : nextCmd ls = some (c, rest)) :
    ls.filterMap processLine = c :: rest.filterMap processLine ∧
      rest.length < ls.length := by
  induction ls with
  | nil => simp [nextCmd] at h
  | cons l t ih =>
    unfold nextCmd at h
    rcases hpl : processLine l with _ | c' <;> rw [hpl] at h
    · obtain ⟨h1, h2⟩ := ih h
      refine ⟨by rw [List.filterMap_cons, hpl, h1], by simpa using Nat.lt_succ_of_lt h2⟩
    · simp only [Option.some.injEq, Prod.mk.injEq] at h
      obtain ⟨hc, hr⟩ := h
      subst hc hr
      exact ⟨by rw [List.filterMap_cons, hpl], by simp⟩

/-! ### Helper lemmas about the response classifier and the drive loop -/

theorem processResponse_ok (s : Sys) :
    processResponse s okTok = { s with waitingForOk := false } := rfl

theorem okDrive_of_not_running {n : Nat} {s : Sys} (h : ¬ s.jobState = .Running) :
    okDrive n s = s := by
  cases n with
  | zero => rfl
  | succ n => simp [okDrive, h]

/-! ### Helper lemmas about the WebSocket buffer -/

theorem wsExtract_snd_noLF (b : List Char) : '\n' ∉ (wsExtract b).2 := by
  induction b with
  | nil => simp [wsExtract]
  | cons c rest ih =>
    rcases hr : wsExtract rest with ⟨ls, buf⟩
    rw [hr] at ih
    simp only at ih
    by_cases hc : c = '\n'
    · simpa [wsExtract, hr, hc] using ih
    · rcases ls with _ | ⟨l, ls'⟩
      · simp only [wsExtract, hr]
        simp only [if_neg hc, List.mem_cons, not_or]
        exact ⟨fun he => hc he.symm, ih⟩
      · simpa [wsExtract, hr, hc] using ih

theorem wsExtract_of_noLF {b : List Char} (h : '\n' ∉ b) :
    wsExtract b = ([], b) := by
  induction b with
  | nil => rfl
  | cons c rest ih =>
    simp only [List.mem_cons, not_or] at h
    have hc : ¬ c = '\n' := fun he => h.1 he.symm
    simp [wsExtract, ih h.2, hc]

theorem takeWhile_dropWhile_self (p : Char → Bool) (l : List Char) :
    ((l.dropWhile p).takeWhile p) = [] := by
  induction l with
  | nil => rfl
  | cons a t ih =>
    by_cases ha : p a = true
    · rwa [List.dropWhile_cons_of_pos ha]
    · rw [List.dropWhile_cons_of_neg (by simpa using ha),
        List.takeWhile_cons_of_neg (by simpa using ha)]

theorem dropWhile_dropWhile_self (p : Char → Bool) (l : List Char) :
    ((l.dropWhile p).dropWhile p) = l.dropWhile p := by
  induction l with
  | nil => rfl
  | cons a t ih =>
    by_cases ha : p a = true
    · rwa [List.dropWhile_cons_of_pos ha]
    · rw [List.dropWhile_cons_of_neg (by simpa using ha),
        List.dropWhile_cons_of_neg (by simpa using ha)]

/-! ### The Running phase of `processJob`, step by step -/

theorem processJob_run_send {s : Sys} {c : List Char} {rest : List (List Char)}
    (h1 : s.jobState = .Running) (h2 : s.waitingForOk = false)
    (hnc : nextCmd s.fileRest = some (c, rest)) (now : Nat) :
    processJob now s =
      { s with fileRest := rest, currentLine := s.currentLine + 1,
               waitingForOk := true, lastCommandTime := now,
               out := s.out ++ [SOut.cmd c] } := by
  simp [processJob, h1, h2, hnc]

theorem processJob_run_eof {s : Sys}
    (h1 : s.jobState = .Running) (h2 : s.waitingForOk = false)
    (hnc : nextCmd s.fileRest = none) (now : Nat) :
    processJob now s =
      { s with fileOpen := false, fileRest := [], jobState := .PostHoming,
               waitingForOk := true, lastCommandTime := now,
               out := s.out ++ [SOut.cmd homeCmd] } := by
  simp [processJob, h1, h2, hnc]

/-- Driving an error-free Running phase to its end: every eligible line of the
remaining file is sent, in order, the consumed-line counter advances by
exactly the number of eligible lines, the file is closed, and the phase ends
in PostHoming after sending the second homing command. -/
theorem okDrive_running :
    ∀ (fuel : Nat) (s : Sys) (rest : List (List Char)),
      s.jobState = .Running → s.waitingForOk = false → s.fileRest = rest →
      rest.length < fuel →
      okDrive fuel s =
        { s with fileOpen := false, fileRest := [], jobState := .PostHoming,
                 waitingForOk := false, lastCommandTime := 0,
                 currentLine := s.currentLine + (rest.filterMap processLine).length,
                 out := s.out ++ (rest.filterMap processLine).map SOut.cmd
                        ++ [SOut.cmd homeCmd] } := by
  intro fuel
  induction fuel with
  | zero => intro s rest _ _ _ hlt; omega
  | succ n ih =>
    intro s rest h1 h2 h3 hlt
    simp only [okDrive]
    rw [if_pos h1]
    cases hnc : nextCmd rest with
    | none =>
      rw [processJob_run_eof h1 h2 (by rw [h3]; exact hnc) 0, processResponse_ok]
      rw [okDrive_of_not_running (by simp)]
      rw [nextCmd_none_filterMap hnc]
      simp
    | some p =>
      obtain ⟨c, rest'⟩ := p
      obtain ⟨hfm, hlen⟩ := nextCmd_some_filterMap hnc
      rw [processJob_run_send h1 h2 (by rw [h3]; exact hnc) 0, processResponse_ok]
      rw [ih _ rest' (by simp [h1]) (by simp) (by simp) (by omega)]
      rw [hfm]
      ext <;> simp <;> omega

/-! ### The file-ownership invariant -/

/-- The states in which the program file handle can actually be open: besides
Running, the file stays open across `pauseJob` (Paused), and `startJob`
invoked from Paused leaks the still-open handle into PreHoming (and into
Error when the new file does not exist). -/
def fileInv (s : Sys) : Prop :=
  s.fileOpen = true →
    s.jobState = .PreHoming ∨ s.jobState = .Running ∨
      s.jobState = .Paused ∨ s.jobState = .Error

theorem startJob_fileInv (now : Nat) (s : Sys) (name : List Char)
    (content : Option (List (List Char))) (h : fileInv s) :
    fileInv (startJob now s name content) := by
  unfold fileInv at h ⊢
  unfold startJob
  split
  · exact h
  · cases content <;> intro ho <;> simp

theorem processJob_fileInv (now : Nat) (s : Sys) (h : fileInv s) :
    fileInv (processJob now s) := by
  unfold fileInv at h ⊢
  unfold processJob
  split <;> (repeat' split) <;> intro ho <;> simp_all

/-- `processGrblResponse` can only do one of three things to the state per
line: nothing, clear the in-flight flag, or (alarm while Running) fail the
job and close the file. -/
theorem processResponse_cases (s : Sys) (line : List Char) :
    processResponse s line = s ∨
    processResponse s line = { s with waitingForOk := false } ∨
    (processResponse s line = { s with jobState := .Error, fileOpen := false } ∧
      s.jobState = .Running) := by
  unfold processResponse
  by_cases h1 : (trim line).isEmpty
  · left; simp [h1]
  · by_cases h2 : trim line = okTok
    · right; left; simp [h2, okTok]
    · by_cases h3 : startsWithL errTok (trim line) = true
      · right; left; simp [h1, h2, h3]
      · by_cases h4 : startsWithL alarmTok (trim line) = true
        · by_cases h5 : s.jobState = .Running
          · right; right; exact ⟨by simp [h1, h2, h3, h4, h5], h5⟩
          · left; simp [h1, h2, h3, h4, h5]
        · left; simp [h1, h2, h3, h4]

theorem processResponse_fileInv (s : Sys) (line : List Char) (h : fileInv s) :
    fileInv (processResponse s line) := by
  unfold fileInv at h ⊢
  rcases processResponse_cases s line with he | he | ⟨he, _⟩ <;> rw [he] <;> intro ho
  · exact h ho
  · simpa using h (by simpa using ho)
  · simp at ho

theorem pauseJob_fileInv (s : Sys) (h : fileInv s) : fileInv (pauseJob s) := by
  unfold fileInv at h ⊢
  unfold pauseJob
  split <;> intro ho <;> simp_all

theorem resumeJob_fileInv (s : Sys) (h : fileInv s) : fileInv (resumeJob s) := by
  unfold fileInv at h ⊢
  unfold resumeJob
  split <;> intro ho <;> simp_all

theorem stopJob_fileInv (s : Sys) (h : fileInv s) : fileInv (stopJob s) := by
  unfold fileInv
  unfold stopJob
  intro ho
  simp at ho

theorem wsText_fileInv (s : Sys) (p : List Char) (h : fileInv s) :
    fileInv (wsText s p) := by
  unfold fileInv at h ⊢
  unfold wsText
  split <;> intro ho <;> simp_all

theorem stepEv_fileInv (s : Sys) (e : Ev) (h : fileInv s) :
    fileInv (stepEv s e) := by
  cases e with
  | start name content now => exact startJob_fileInv now s name content h
  | tick now => exact processJob_fileInv now s h
  | rx line => exact processResponse_fileInv s line h
  | pause => exact pauseJob_fileInv s h
  | resume => exact resumeJob_fileInv s h
  | stop => exact stopJob_fileInv s h
  | ws p => exact wsText_fileInv s p h

theorem run_fileInv : ∀ (es : List Ev) (s : Sys), fileInv s → fileInv (run es s) := by
  intro es
  induction es with
  | nil => intro s h; exact h
  | cons e es ih =>
    intro s h
    exact ih (stepEv s e) (stepEv_fileInv s e h)

/-! ### Concrete fixtures used by the claim witnesses and counterexamples -/

/-- The program file of Scenario A. -/
def progA : List (List Char) :=
  [("G0 X0").toList, (";comment").toList, ("G1 X10 ; move").toList,
   ("").toList, ("M5").toList]

/-- A file name. -/
def fNameW : List Char := ("job.gcode").toList

/-- An interactive payload carrying one complete command line. -/
def gPayload : List Char := ("G1 X10\n").toList

/-- The command line carried by `gPayload`. -/
def gCmd : List Char := ("G1 X10").toList

/-- Job started, pre-homing command sent and still unacknowledged. -/
def sInFlight : Sys := run [Ev.start fNameW (some progA) 0] init

/-- Job started, homing acknowledged, first Running tick done is not yet
taken: state Running with the file open and nothing in flight. -/
def sRunA : Sys :=
  run [Ev.start fNameW (some progA) 0, Ev.rx okTok, Ev.tick 0] init

/-- An empty job driven to PostHoming, final homing unacknowledged. -/
def sPostW : Sys :=
  run [Ev.start fNameW (some ([] : List (List Char))) 0, Ev.rx okTok,
       Ev.tick 0, Ev.tick 0] init

/-- `sPostW` after the final homing acknowledgment. -/
def sPostAck : Sys := processResponse sPostW okTok

/-- An empty job driven all the way to Complete. -/
def sDone : Sys := processJob 0 sPostAck

/-- Number of command lines (as opposed to raw realtime bytes) in a serial
trace. -/
def cmdCount (out : List SOut) : Nat :=
  (out.filter (fun o => match o with | SOut.cmd _ => true | SOut.rt _ => false)).length

/-- First characters argument helper: a `startsWithL` match forces the head
of the scanned string. -/
theorem startsWithL_cons {p : Char} {ps l : List Char}
    (h : startsWithL (p :: ps) l = true) :
    ∃ t, l = p :: t ∧ startsWithL ps t = true := by
  cases l with
  | nil => simp [startsWithL] at h
  | cons c t =>
    unfold startsWithL at h
    by_cases hc : p = c
    · exact ⟨t, by rw [hc], by simpa [hc] using h⟩
    · simp [hc] at h

/-! ### Claim C1 -/

/-- Claim C1, counterexample: the single-flight property as claimed is false.
With the pre-homing `$H` sent and still unacknowledged (`waitingForOk`
true), delivering the interactive payload `"G1 X10\n"` writes a second
command line to the serial link instead of dropping it: the interactive path
never consults `waitingForOk`. -/
theorem C1_single_flight_cex :
    ¬ (∀ (es : List Ev) (p : List Char),
        (run es init).waitingForOk = true →
        cmdCount (wsText (run es init) p).out = cmdCount (run es init).out) := by
  intro h
  have h2 := h [Ev.start fNameW (some progA) 0] gPayload (by decide)
  revert h2
  decide

/-- Claim C1, amended: only the job tick path is gated on the in-flight flag.
`processJob` writes nothing while `waitingForOk` is true, and whenever it
writes it sets `waitingForOk`; the interactive path never modifies
`waitingForOk` and forwards a complete non-realtime line to the serial link
regardless of the in-flight state, so such a line is forwarded, not
dropped. -/
theorem C1_arbitration (s : Sys) (now : Nat) (p : List Char) :
    (s.waitingForOk = true → (processJob now s).out = s.out) ∧
    ((processJob now s).out ≠ s.out →
      s.waitingForOk = false ∧ (processJob now s).waitingForOk = true) ∧
    (wsText s p).waitingForOk = s.waitingForOk ∧
    (s.wsBuf = [] → (wsText s gPayload).out = s.out ++ [SOut.cmd gCmd]) := by
  refine ⟨?_, ?_, ?_, ?_⟩
  · intro hw
    unfold processJob
    split <;> (repeat' split) <;> simp_all
  · intro hne
    unfold processJob at hne ⊢
    split at hne <;> (repeat' split at hne) <;> simp_all
  · unfold wsText
    split <;> simp
  · intro hb
    unfold wsText
    rw [hb, if_neg (by decide)]
    have hpw : processWsBuffer gPayload = ([], [SOut.cmd gCmd]) := by decide
    simp [hpw]

/-- Claim C1, witness for the amended statement at concrete states. -/
theorem C1_arbitration_witness :
    (processJob 0 sInFlight).out = sInFlight.out ∧
    (sRunA.waitingForOk = false ∧ (processJob 0 sRunA).waitingForOk = true) ∧
    (wsText sInFlight gPayload).waitingForOk = sInFlight.waitingForOk ∧
    (wsText sInFlight gPayload).out = sInFlight.out ++ [SOut.cmd gCmd] := by
  refine ⟨(C1_arbitration sInFlight 0 gPayload).1 (by decide),
          (C1_arbitration sRunA 0 gPayload).2.1 (by decide),
          (C1_arbitration sInFlight 0 gPayload).2.2.1,
          (C1_arbitration sInFlight 0 gPayload).2.2.2 (by decide)⟩

/-! ### Claim C2 -/

/-- Claim C2, counterexample: an `ALARM:` line received while the job is in
PreHoming does not move the state to Error — the alarm branch of
`processGrblResponse` only reacts when the state is Running. -/
theorem C2_alarm_cex :
    ¬ (∀ (es : List Ev) (line : List Char),
        startsWithL alarmTok (trim line) = true →
        ((run es init).jobState = JState.Running ∨
          (run es init).jobState = JState.PreHoming ∨
          (run es init).jobState = JState.PostHoming) →
        (processResponse (run es init) line).jobState = JState.Error) := by
  intro h
  have h2 := h [Ev.start fNameW (some progA) 0] (("ALARM:1").toList)
    (by decide) (by decide)
  revert h2
  decide

/-- Claim C2, amended: an `ALARM:`-classified line moves the job to Error and
closes the file exactly when the state is Running; in every other state
(PreHoming and PostHoming included) it leaves the state entirely
unchanged. -/
theorem C2_alarm_only_running (s : Sys) (line : List Char)
    (h : startsWithL alarmTok (trim line) = true) :
    (s.jobState = JState.Running →
      processResponse s line = { s with jobState := JState.Error, fileOpen := false }) ∧
    (s.jobState ≠ JState.Running → processResponse s line = s) := by
  obtain ⟨t, hl, _⟩ := startsWithL_cons (by simpa only [alarmTok] using h)
  have h1 : ¬ (trim line).isEmpty = true := by rw [hl]; simp
  have h2 : ¬ (trim line = okTok) := by
    rw [hl, okTok]
    intro he
    injection he with he1 _
    exact absurd he1 (by decide)
  have h3 : ¬ (startsWithL errTok (trim line) = true) := by
    rw [hl]
    simp [errTok, startsWithL]
  constructor <;> intro hj <;> unfold processResponse <;> simp [h1, h2, h3, h, hj]

/-- Claim C2, witness for the amended statement: the alarm line is inert in
PreHoming and fatal in Running. -/
theorem C2_alarm_only_running_witness :
    processResponse sInFlight (("ALARM:1").toList) = sInFlight ∧
    processResponse sRunA (("ALARM:1").toList) =
      { sRunA with jobState := JState.Error, fileOpen := false } := by
  refine ⟨(C2_alarm_only_running sInFlight (("ALARM:1").toList) (by decide)).2 (by decide),
          (C2_alarm_only_running sRunA (("ALARM:1").toList) (by decide)).1 (by decide)⟩

/-! ### Claim C3 -/

/-- Claim C3: line-count fidelity. From any state that has just entered the
Running phase with the file contents `prog` still unread, driving the job to
completion without error (each sent command acknowledged) sends exactly the
eligible lines of `prog` as commands — `countL prog` of them, the number the
pre-scan reports — followed by the single post-homing `$H`, and ends in
PostHoming with the file closed and the consumed-line counter advanced by
exactly `countL prog`. -/
theorem C3_line_count (prog : List (List Char)) (s : Sys)
    (h1 : s.jobState = JState.Running) (h2 : s.waitingForOk = false)
    (h3 : s.fileRest = prog) :
    okDrive (prog.length + 1) s =
      { s with fileOpen := false, fileRest := [], jobState := JState.PostHoming,
               waitingForOk := false, lastCommandTime := 0,
               currentLine := s.currentLine + countL prog,
               out := s.out ++ (prog.filterMap processLine).map SOut.cmd
                      ++ [SOut.cmd homeCmd] } ∧
    countL prog = (prog.filterMap processLine).length := by
  refine ⟨?_, countL_eq_length_filterMap prog⟩
  rw [okDrive_running (prog.length + 1) s prog h1 h2 h3 (by omega)]
  rw [countL_eq_length_filterMap prog]

/-- Claim C3, witness: Scenario A. The file
`["G0 X0", ";comment", "G1 X10 ; move", "", "M5"]` pre-scans to 3 candidate
lines and the Running phase sends exactly `["G0 X0", "G1 X10", "M5"]`. -/
theorem C3_line_count_witness :
    (okDrive (progA.length + 1) sRunA =
      { sRunA with fileOpen := false, fileRest := [],
                   jobState := JState.PostHoming,
                   waitingForOk := false, lastCommandTime := 0,
                   currentLine := sRunA.currentLine + countL progA,
                   out := sRunA.out ++ (progA.filterMap processLine).map SOut.cmd
                          ++ [SOut.cmd homeCmd] } ∧
      countL progA = (progA.filterMap processLine).length) ∧
    countL progA = 3 ∧
    progA.filterMap processLine =
      [("G0 X0").toList, ("G1 X10").toList, ("M5").toList] ∧
    sRunA.jobState = JState.Running ∧ sRunA.out = [SOut.cmd homeCmd] := by
  refine ⟨C3_line_count progA sRunA (by decide) (by decide) (by decide),
          by decide, by decide, by decide, by decide⟩

/-! ### Claim C4 -/

/-- Claim C4, counterexample: a reachable state with the program file open
whose job state is not Running — `pauseJob` moves Running to Paused without
closing the file, so the handle stays open throughout Paused. -/
theorem C4_file_open_cex :
    ¬ (∀ (es : List Ev), (run es init).fileOpen = true →
        (run es init).jobState = JState.Running) := by
  intro h
  have h2 := h [Ev.start fNameW (some progA) 0, Ev.rx okTok, Ev.tick 0, Ev.pause]
    (by decide)
  revert h2
  decide

/-- Claim C4, amended: in every reachable state, the program file handle is
open only while the job state is Running or Paused — or, through the
unguarded `startJob`-from-Paused path which never closes the previous
handle, PreHoming or Error. It is never open in Idle, PostHoming or
Complete. -/
theorem C4_file_open_states (es : List Ev)
    (h : (run es init).fileOpen = true) :
    (run es init).jobState = JState.PreHoming ∨
    (run es init).jobState = JState.Running ∨
    (run es init).jobState = JState.Paused ∨
    (run es init).jobState = JState.Error :=
  run_fileInv es init (fun ho => absurd ho (by decide)) h

/-- Claim C4, witness for the amended statement: a reachable Running state
with the file open. -/
theorem C4_file_open_states_witness :
    (run [Ev.start fNameW (some progA) 0, Ev.rx okTok, Ev.tick 0] init).fileOpen
      = true ∧
    ((run [Ev.start fNameW (some progA) 0, Ev.rx okTok, Ev.tick 0] init).jobState
        = JState.PreHoming ∨
     (run [Ev.start fNameW (some progA) 0, Ev.rx okTok, Ev.tick 0] init).jobState
        = JState.Running ∨
     (run [Ev.start fNameW (some progA) 0, Ev.rx okTok, Ev.tick 0] init).jobState
        = JState.Paused ∨
     (run [Ev.start fNameW (some progA) 0, Ev.rx okTok, Ev.tick 0] init).jobState
        = JState.Error) :=
  ⟨by decide,
   C4_file_open_states [Ev.start fNameW (some progA) 0, Ev.rx okTok, Ev.tick 0]
     (by decide)⟩

/-! ### Claim C5 -/

/-- Claim C5, counterexample: `startJob` is not inert outside Idle. From a
reachable Complete state, a start request with an existing file changes the
state (to PreHoming), resets the counters and sends `$H`. -/
theorem C5_start_cex :
    ¬ (∀ (es : List Ev) (name : List Char)
        (content : Option (List (List Char))) (now : Nat),
        (run es init).jobState ≠ JState.Idle →
        startJob now (run es init) name content = run es init) := by
  intro h
  have h2 := h [Ev.start fNameW (some ([] : List (List Char))) 0, Ev.rx okTok,
                Ev.tick 0, Ev.tick 0, Ev.rx okTok, Ev.tick 0]
    fNameW (some progA) 0 (by decide)
  revert h2
  decide

/-- Claim C5, amended: a start request is inert exactly when the state is
Running, PreHoming or PostHoming. In every other state (Idle, Paused,
Complete, Error alike) it proceeds: with a missing file it only moves the
state to Error; with an existing file it records the job, resets the line
counters, moves to PreHoming and sends the homing command with the
in-flight flag set. -/
theorem C5_start_guard (now : Nat) (s : Sys) (name : List Char)
    (content : Option (List (List Char))) :
    ((s.jobState = JState.Running ∨ s.jobState = JState.PreHoming ∨
        s.jobState = JState.PostHoming) →
      startJob now s name content = s) ∧
    (s.jobState ≠ JState.Running → s.jobState ≠ JState.PreHoming →
      s.jobState ≠ JState.PostHoming →
      (content = none → startJob now s name content = { s with jobState := JState.Error }) ∧
      (∀ ls, content = some ls →
        startJob now s name content =
          { s with pendingJobFile := normPath name, currentJobFile := name,
                   pendingContent := some ls, totalLines := countL ls,
                   currentLine := 0, jobState := JState.PreHoming,
                   waitingForOk := true, lastCommandTime := now,
                   out := s.out ++ [SOut.cmd homeCmd] })) := by
  constructor
  · intro hj
    unfold startJob
    rw [if_pos hj]
  · intro hr hpre hpost
    have hng : ¬ (s.jobState = JState.Running ∨ s.jobState = JState.PreHoming ∨
        s.jobState = JState.PostHoming) := by simp [hr, hpre, hpost]
    constructor
    · intro hc
      subst hc
      unfold startJob
      rw [if_neg hng]
    · intro ls hc
      subst hc
      unfold startJob
      rw [if_neg hng]

/-- Claim C5, witness for the amended statement: inert in Running, effective
from Idle for both a missing and an existing file. -/
theorem C5_start_guard_witness :
    startJob 0 sRunA fNameW (some progA) = sRunA ∧
    startJob 0 init fNameW none = { init with jobState := JState.Error } ∧
    startJob 0 init fNameW (some progA) =
      { init with pendingJobFile := normPath fNameW, currentJobFile := fNameW,
                  pendingContent := some progA, totalLines := countL progA,
                  currentLine := 0, jobState := JState.PreHoming,
                  waitingForOk := true, lastCommandTime := 0,
                  out := init.out ++ [SOut.cmd homeCmd] } := by
  refine ⟨(C5_start_guard 0 sRunA fNameW (some progA)).1 (by decide),
          ((C5_start_guard 0 init fNameW none).2 (by decide) (by decide) (by decide)).1 rfl,
          ((C5_start_guard 0 init fNameW (some progA)).2 (by decide) (by decide)
            (by decide)).2 progA rfl⟩

/-! ### Claim C6 -/

/-- Claim C6: a `processJob` tick in PostHoming can only stay in PostHoming
or move to Complete — never to Error. It moves to Complete both when the
acknowledgment has arrived (`waitingForOk` cleared) and when the homing
timeout has elapsed without one. -/
theorem C6_post_homing_complete (s : Sys) (now : Nat)
    (h : s.jobState = JState.PostHoming) :
    ((processJob now s).jobState = JState.PostHoming ∨
      (processJob now s).jobState = JState.Complete) ∧
    (s.waitingForOk = false → (processJob now s).jobState = JState.Complete) ∧
    (now - s.lastCommandTime > HOMING_TIMEOUT →
      (processJob now s).jobState = JState.Complete) ∧
    ¬ (processJob now s).jobState = JState.Error := by
  unfold processJob
  by_cases hw : s.waitingForOk = false
  · simp [h, hw]
  · by_cases ht : now - s.lastCommandTime > HOMING_TIMEOUT
    · simp [h, hw, ht]
    · simp [h, hw, ht]

/-- Claim C6, witness: the concrete PostHoming state completes on the
acknowledgment, and also completes (rather than erroring) when polled after
the 60s homing timeout with no acknowledgment. -/
theorem C6_post_homing_complete_witness :
    (processJob 0 sPostAck).jobState = JState.Complete ∧
    (processJob 70000 sPostW).jobState = JState.Complete ∧
    ¬ (processJob 70000 sPostW).jobState = JState.Error := by
  refine ⟨(C6_post_homing_complete sPostAck 0 (by decide)).2.1 (by decide),
          (C6_post_homing_complete sPostW 70000 (by decide)).2.2.1 (by decide),
          (C6_post_homing_complete sPostW 70000 (by decide)).2.2.2⟩

/-! ### Claim C7 -/

/-- Claim C7: a controller line whose trimmed text starts with `error:`
clears the in-flight flag and changes nothing else — in particular the job
state is left unchanged, whatever it is. -/
theorem C7_error_clears_flag (s : Sys) (line : List Char)
    (h : startsWithL errTok (trim line) = true) :
    processResponse s line = { s with waitingForOk := false } := by
  obtain ⟨t, hl, _⟩ := startsWithL_cons (by simpa only [errTok] using h)
  have h1 : ¬ (trim line).isEmpty = true := by rw [hl]; simp
  have h2 : ¬ (trim line = okTok) := by
    rw [hl, okTok]
    intro he
    injection he with he1 _
    exact absurd he1 (by decide)
  unfold processResponse
  simp [h1, h2, h]

/-- Claim C7, witness: `error:22` during an in-flight pre-homing command
clears the flag and leaves the PreHoming job state in place. -/
theorem C7_error_clears_flag_witness :
    processResponse sInFlight (("error:22").toList) =
      { sInFlight with waitingForOk := false } :=
  C7_error_clears_flag sInFlight (("error:22").toList) (by decide)

/-! ### Claim C8 -/

/-- Claim C8: `pauseJob` from Running changes only the job state (to Paused)
and appends the single realtime byte `!` to the serial trace; `resumeJob`
from Paused symmetrically emits `~` and restores Running; hence a
pause/resume round trip restores the exact pre-pause state — consumed-line
counter, total counter, in-flight flag, file-open flag and file cursor
untouched — except for the two realtime bytes in the trace. -/
theorem C8_pause_resume_frame (s : Sys) :
    (s.jobState = JState.Running →
      pauseJob s = { s with jobState := JState.Paused, out := s.out ++ [SOut.rt '!'] }) ∧
    (s.jobState = JState.Paused →
      resumeJob s = { s with jobState := JState.Running, out := s.out ++ [SOut.rt '~'] }) ∧
    (s.jobState = JState.Running →
      resumeJob (pauseJob s) = { s with out := s.out ++ [SOut.rt '!', SOut.rt '~'] }) := by
  refine ⟨?_, ?_, ?_⟩
  · intro hj
    unfold pauseJob
    rw [if_pos hj]
  · intro hj
    unfold resumeJob
    rw [if_pos hj]
  · intro hj
    unfold pauseJob resumeJob
    rw [if_pos hj, if_pos (by simp)]
    ext <;> simp [hj.symm]

/-- Claim C8, witness: the round trip on the concrete Running state. -/
theorem C8_pause_resume_frame_witness :
    pauseJob sRunA = { sRunA with jobState := JState.Paused,
                                  out := sRunA.out ++ [SOut.rt '!'] } ∧
    resumeJob (pauseJob sRunA) =
      { sRunA with out := sRunA.out ++ [SOut.rt '!', SOut.rt '~'] } := by
  refine ⟨(C8_pause_resume_frame sRunA).1 (by decide),
          (C8_pause_resume_frame sRunA).2.2 (by decide)⟩

/-! ### Claim C9 -/

/-- Claim C9: after any run of `processWsBuffer` the retained buffer contains
no line-feed and is at most 256 characters long; and when the residue (after
line extraction and leading-realtime stripping) exceeds 256 characters
without a line terminator, the whole content is handed to
`grblSendGcodeLine` as a single command and the buffer is cleared. -/
theorem C9_ws_buffer_bound (b : List Char) :
    '\n' ∉ (processWsBuffer b).1 ∧
    (processWsBuffer b).1.length ≤ 256 ∧
    ('\n' ∉ b → 256 < (b.dropWhile isRealtime).length →
      processWsBuffer b =
        ([], (b.takeWhile isRealtime).map SOut.rt ++
          grblSendGcodeLine (b.dropWhile isRealtime))) := by
  refine ⟨?_, ?_, ?_⟩
  · simp only [processWsBuffer]
    split
    · simp
    · intro hmem
      exact absurd (List.Sublist.mem hmem (List.dropWhile_sublist _))
        (wsExtract_snd_noLF _)
  · simp only [processWsBuffer]
    split
    · simp
    · rename_i hlen
      simpa using Nat.le_of_not_lt (by simpa using hlen)
  · intro h1 h2
    have hb1 : '\n' ∉ b.dropWhile isRealtime :=
      fun hm => h1 (List.Sublist.mem hm (List.dropWhile_sublist _))
    simp only [processWsBuffer]
    rw [wsExtract_of_noLF hb1]
    simp only [takeWhile_dropWhile_self, dropWhile_dropWhile_self, List.map_nil,
      List.flatten_nil, List.append_nil, List.nil_append]
    rw [if_pos h2]

set_option maxRecDepth 4096 in
/-- Claim C9, witness: a 257-character buffer with no terminator and no
realtime bytes is flushed whole and the buffer is cleared. -/
theorem C9_ws_buffer_bound_witness :
    '\n' ∉ (processWsBuffer (List.replicate 257 'G')).1 ∧
    (processWsBuffer (List.replicate 257 'G')).1.length ≤ 256 ∧
    processWsBuffer (List.replicate 257 'G') =
      ([], ((List.replicate 257 'G').takeWhile isRealtime).map SOut.rt ++
        grblSendGcodeLine ((List.replicate 257 'G').dropWhile isRealtime)) := by
  refine ⟨(C9_ws_buffer_bound (List.replicate 257 'G')).1,
          (C9_ws_buffer_bound (List.replicate 257 'G')).2.1,
          (C9_ws_buffer_bound (List.replicate 257 'G')).2.2 (by decide) (by decide)⟩

/-! ### Claim C10 -/

/-- Claim C10: an interactive line that, after CR removal and trimming, is
exactly one of the single characters `?`, `!`, `~` or `0x18` is written to
the serial link as a raw byte (no line terminator), and the interactive path
never touches the in-flight flag. -/
theorem C10_realtime_line (raw : List Char) (c : Char) (s : Sys) (p : List Char)
    (hc : c = '?' ∨ c = '!' ∨ c = '~' ∨ c = ctrlX)
    (ht : trim (removeCR raw) = [c]) :
    grblSendGcodeLine raw = [SOut.rt c] ∧
    (wsText s p).waitingForOk = s.waitingForOk := by
  constructor
  · unfold grblSendGcodeLine
    rw [ht]
    rcases hc with h | h | h | h <;> subst h <;> rfl
  · unfold wsText
    split <;> simp

/-- Claim C10, witness: the line `" ?"` (trimming to a lone `?`) goes out as
the raw status-query byte. -/
theorem C10_realtime_line_witness :
    grblSendGcodeLine ((" ?").toList) = [SOut.rt '?'] ∧
    (wsText sInFlight gPayload).waitingForOk = sInFlight.waitingForOk :=
  C10_realtime_line ((" ?").toList) '?' sInFlight gPayload (Or.inl rfl) (by decide)

end LaserBridge
